import Mathlib

/-!
Shallow embedding of `src/coroutine.h` (the non-MSVC, ucontext backend) —
a single-header cooperative coroutine runtime with a routine table
(`Ordinator`), `create` / `destroy` / `resume` / `yield` / `current`,
a blocking-call bridge `await`, and a typed FIFO `Channel`.

Modelling decisions, each traceable to the source:
* `routine_t` is `unsigned int`; identifiers are modelled as `Nat` and the
  table index `id - 1` (computed in C++ unsigned arithmetic) is modelled by
  `slotIdx id = (id + (2^32 - 1)) % 2^32`, so `slotIdx 0 = 2^32 - 1`.
* The routine table `std::vector<std::shared_ptr<Routine>>` is a
  `List (Option Routine)`; an empty slot (`nullptr`) is `none`.
* A routine body (`std::function<void()>` together with the saved
  `ucontext_t`) is modelled syntactically as a `Prog`: the remaining
  program of the routine, rewritten at each suspension point.  `yieldP`
  is a call to `yield()`, `pushP v` a call to `Channel::push(v)`, `popP`
  a call to `Channel::pop()` (its taker-binding prologue), `popLoopP` the
  `while (list_.empty()) yield();` loop inside `pop` together with the
  head removal, and `ret` the return of the body.  One channel (the one
  the programs under study use) is carried in the state.
* A failed `assert` and an out-of-range `std::vector` access both stop
  the program: modelled as the `Res.abort` outcome.  `Res.oog` is fuel
  exhaustion of the interpreter, an artefact of the embedding, never of
  the code.
* Values popped by `Channel::pop` are returned to the popping routine; the
  ghost field `St.log` records, in order, every value `pop` has returned.
-/

namespace CoroutineModel

/-- Channel element type: the embedding instantiates `Channel<T>` at `Int`. -/
abbrev Val := Int

/-- Syntactic routine bodies: the remaining program of a routine.
`ret` is the body returning; `yieldP k` a call to `yield()` continuing
with `k`; `pushP v k` a call to `Channel::push(v)`; `popP k` a call to
`Channel::pop()` (entered at its taker-binding prologue); `popLoopP k`
the point inside `pop` at the `while (list_.empty()) yield();` loop. -/
inductive Prog where
  | ret : Prog
  | yieldP : Prog → Prog
  | pushP : Val → Prog → Prog
  | popP : Prog → Prog
  | popLoopP : Prog → Prog
deriving DecidableEq

/-- The class `Channel<T>`: `std::list<Type> list_` and `routine_t taker_`. -/
structure Channel where
  list_ : List Val
  taker_ : Nat
deriving DecidableEq

/-- Member `Channel::consume(id)`: `taker_ = id;`. -/
def Channel.consume (c : Channel) (id : Nat) : Channel :=
  { c with taker_ := id }

/-- Queue-append component of `Channel::push`: `list_.push_back(obj);`.
(The full member function also resumes the taker; see `hostPush` and the
`Prog.pushP` case of the interpreter.) -/
def Channel.pushQ (c : Channel) (v : Val) : Channel :=
  { c with list_ := c.list_ ++ [v] }

/-- Head-removal component of `Channel::pop` once the queue is non-empty:
`Type obj = std::move(list_.front()); list_.pop_front(); return obj;`.
`none` when the queue is empty (in the source, `pop` does not reach this
code until the queue is non-empty). -/
def Channel.popQ (c : Channel) : Option (Val × Channel) :=
  match c.list_ with
  | [] => none
  | v :: rest => some (v, { c with list_ := rest })

/-- Member `Channel::clear()`: `list_.clear();`. -/
def Channel.clear (c : Channel) : Channel :=
  { c with list_ := [] }

/-- Member `Channel::size()`: `return list_.size();` — result paired with the
(unchanged) channel state the member function leaves behind. -/
def Channel.size (c : Channel) : Nat × Channel :=
  (c.list_.length, c)

/-- Member `Channel::empty()`: `return list_.empty();` — result paired with the
(unchanged) channel state the member function leaves behind. -/
def Channel.empty (c : Channel) : Bool × Channel :=
  (c.list_.isEmpty, c)

/-- The source `struct Routine`: `func` (here: the remaining program, standing for
both `func` and the saved `ucontext_t` continuation), `stack`
(`started = true` iff `stack != nullptr`), and `finished`. -/
structure Routine where
  prog : Prog
  started : Bool
  finished : Bool
deriving DecidableEq

/-- The `Routine(std::function<void()> f)` constructor:
`stack(nullptr), finished(false)`. -/
def mkRoutine (f : Prog) : Routine :=
  ⟨f, false, false⟩

/-- The source `struct Ordinator` (plus the one channel and the ghost pop log):
`routines` is `std::vector<std::shared_ptr<Routine>>`, `indexes` the
free-list `std::list<routine_t>`, `current` the running id (0 = host). -/
structure St where
  routines : List (Option Routine)
  indexes : List Nat
  current : Nat
  chan : Channel
  log : List Val
deriving DecidableEq

/-- Outcome of running embedded code: a value, an `assert` failure or
out-of-range vector access (`abort`), or interpreter fuel exhaustion
(`oog`, an artefact of the embedding only). -/
inductive Res (α : Type) where
  | ok : α → Res α
  | abort : Res α
  | oog : Res α
deriving DecidableEq

/-- Size of the `unsigned int` value space (`routine_t`). -/
def UINT_SIZE : Nat := 2 ^ 32

/-- The table index `id - 1` computed in C++ `unsigned int` arithmetic:
for `1 ≤ id < 2^32` this is `id - 1`; for `id = 0` it wraps to
`2^32 - 1`. -/
def slotIdx (id : Nat) : Nat :=
  (id + (UINT_SIZE - 1)) % UINT_SIZE

/-- The unchecked table access `ordinator.routines[id - 1]`:
`none` when the index is out of range (undefined behaviour in C++),
otherwise the slot's contents. -/
def getSlot (st : St) (id : Nat) : Option (Option Routine) :=
  st.routines.get? (slotIdx id)

/-- Function `create(f)`: wrap `f` in a fresh `Routine`; if the free-list is empty,
`push_back` and return the new size; otherwise take the front of the
free-list, `assert(routines[id-1] == nullptr)`, and install the routine
there. -/
def create (f : Prog) (st : St) : Res (Nat × St) :=
  match st.indexes with
  | [] =>
    Res.ok (st.routines.length + 1,
      { st with routines := st.routines ++ [some (mkRoutine f)] })
  | id :: rest =>
    match getSlot st id with
    | none => Res.abort
    | some (some _) => Res.abort
    | some none =>
      Res.ok (id,
        { st with
            routines := st.routines.set (slotIdx id) (some (mkRoutine f)),
            indexes := rest })

/-- Function `destroy(id)`: `assert(routines[id-1] != nullptr)`, reset the slot,
`indexes.push_back(id)`. -/
def destroy (id : Nat) (st : St) : Res St :=
  match getSlot st id with
  | none => Res.abort
  | some none => Res.abort
  | some (some _) =>
    Res.ok { st with
               routines := st.routines.set (slotIdx id) none,
               indexes := st.indexes ++ [id] }

/-- Function `resume(id)`, parametrised by the interpreter `run` used to execute
the routine's remaining program (tying the knot with `runProg` below).
Steps, from the source: `assert(ordinator.current == 0)`; read
`routines[id-1]`; `nullptr` gives `-1`; `finished` gives `-2`.  Otherwise
allocate the stack on first resume (`started := true`), set
`current := id`, and transfer control into the routine.  If the body
returns, the `entry` trampoline runs: `finished = true`,
`current = 0`, `indexes.push_back(id)` — the slot is NOT cleared.  If the
body yields, `yield` has already set `current = 0` and the routine's
continuation is saved; `resume` returns `0` in both cases. -/
def resumeWith (run : St → Prog → Res (St × Option Prog)) (id : Nat)
    (st : St) : Res (Int × St) :=
  if st.current ≠ 0 then Res.abort
  else
    match getSlot st id with
    | none => Res.abort
    | some none => Res.ok (-1, st)
    | some (some r) =>
      if r.finished then Res.ok (-2, st)
      else
        let r1 : Routine := ⟨r.prog, true, false⟩
        let st1 : St :=
          { st with
              routines := st.routines.set (slotIdx id) (some r1),
              current := id }
        match run st1 r1.prog with
        | Res.oog => Res.oog
        | Res.abort => Res.abort
        | Res.ok (st2, none) =>
          Res.ok (0,
            { st2 with
                routines :=
                  st2.routines.set (slotIdx id) (some ⟨Prog.ret, true, true⟩),
                current := 0,
                indexes := st2.indexes ++ [id] })
        | Res.ok (st2, some k) =>
          Res.ok (0,
            { st2 with
                routines :=
                  st2.routines.set (slotIdx id) (some ⟨k, true, false⟩) })

/-- Fuel-indexed interpreter for a routine's remaining program, running
with `st.current` set to the routine's id.  Returns the state together
with `none` when the body returned, or `some k` when it yielded with
continuation `k` (in which case `yield()` has already set
`current = 0`). -/
def runProg : Nat → St → Prog → Res (St × Option Prog)
  | 0, _, _ => Res.oog
  | _ + 1, st, Prog.ret => Res.ok (st, none)
  | _ + 1, st, Prog.yieldP k =>
    match getSlot st st.current with
    | none => Res.abort
    | some none => Res.abort
    | some (some _) => Res.ok ({ st with current := 0 }, some k)
  | fuel + 1, st, Prog.pushP v k =>
    let st1 : St := { st with chan := st.chan.pushQ v }
    if st1.chan.taker_ ≠ 0 ∧ st1.chan.taker_ ≠ st1.current then
      match resumeWith (runProg fuel) st1.chan.taker_ st1 with
      | Res.oog => Res.oog
      | Res.abort => Res.abort
      | Res.ok (_, st2) => runProg fuel st2 k
    else runProg fuel st1 k
  | fuel + 1, st, Prog.popP k =>
    let st1 : St :=
      if st.chan.taker_ = 0 then { st with chan := st.chan.consume st.current }
      else st
    runProg fuel st1 (Prog.popLoopP k)
  | fuel + 1, st, Prog.popLoopP k =>
    match st.chan.list_ with
    | [] =>
      match getSlot st st.current with
      | none => Res.abort
      | some none => Res.abort
      | some (some _) => Res.ok ({ st with current := 0 }, some (Prog.popLoopP k))
    | v :: rest =>
      runProg fuel
        { st with chan := { st.chan with list_ := rest }, log := st.log ++ [v] }
        k

/-- Function `resume(id)` with an explicit fuel budget for the interpreter. -/
def resume : Nat → Nat → St → Res (Int × St)
  | 0, _, _ => Res.oog
  | n + 1, id, st => resumeWith (runProg n) id st

/-- Member `Channel::push(obj)` as called from host code (the same member
function a routine's `pushP` instruction executes):
`list_.push_back(obj); if (taker_ && taker_ != current()) resume(taker_);`. -/
def hostPush (fuel : Nat) (v : Val) (st : St) : Res St :=
  let st1 : St := { st with chan := st.chan.pushQ v }
  if st1.chan.taker_ ≠ 0 ∧ st1.chan.taker_ ≠ st1.current then
    match resume fuel st1.chan.taker_ st1 with
    | Res.oog => Res.oog
    | Res.abort => Res.abort
    | Res.ok (_, st2) => Res.ok st2
  else Res.ok st1

/-- A sequence of `create` calls, returning the ids issued in order. -/
def createSeq (fs : List Prog) (st : St) : Res (List Nat × St) :=
  match fs with
  | [] => Res.ok ([], st)
  | f :: rest =>
    match create f st with
    | Res.oog => Res.oog
    | Res.abort => Res.abort
    | Res.ok (id, st') =>
      match createSeq rest st' with
      | Res.oog => Res.oog
      | Res.abort => Res.abort
      | Res.ok (ids, st'') => Res.ok (id :: ids, st'')

/-- Function `await(func, args...)`: `std::async` launches `func(args...)` on a
separate thread (the future's value is `f a`); the loop
`while (status == timeout) { if (current != 0) yield(); ... }` polls,
yielding, a finite number of times without touching the future's value;
`return future.get();` hands that value back unchanged.  `polls` is the
number of loop iterations before the future becomes ready. -/
def await (polls : Nat) (f : α → β) (a : α) : β :=
  awaitPoll polls (f a)
where
  /-- One polling iteration of the `await` loop per fuel unit: the loop
  body does not modify the future's result. -/
  awaitPoll : Nat → β → β
    | 0, v => v
    | n + 1, v => awaitPoll n v

/-- Events on one channel: the queue-append component of a push, and a
completed pop (which in the source requires a non-empty queue: `pop`
loops in `yield()` until then). -/
inductive Ev where
  | pushE : Val → Ev
  | popE : Ev
deriving DecidableEq

/-- The values pushed by a trace, in order. -/
def pushesOf : List Ev → List Val
  | [] => []
  | Ev.pushE v :: evs => v :: pushesOf evs
  | Ev.popE :: evs => pushesOf evs

/-- Run a trace of queue events on a channel, collecting the values the
pops return, in order.  A pop on an empty queue yields forever in the
source (never completes), so such a trace has no final state: `none`. -/
def runTrace : List Ev → Channel → Option (Channel × List Val)
  | [], c => some (c, [])
  | Ev.pushE v :: evs, c => runTrace evs (c.pushQ v)
  | Ev.popE :: evs, c =>
    match c.popQ with
    | none => none
    | some (v, c') =>
      match runTrace evs c' with
      | none => none
      | some (c'', ps) => some (c'', v :: ps)

/-! Helper lemmas about the wrapped table index. -/

/-- For identifiers in the `unsigned int` range and at least 1, the wrapped
index is the plain `id - 1`. -/
theorem slotIdx_of_pos (id : Nat) (h1 : 1 ≤ id) (h2 : id < UINT_SIZE) :
    slotIdx id = id - 1 := by
  unfold slotIdx
  have he : id + (UINT_SIZE - 1) = (id - 1) + UINT_SIZE := by
    unfold UINT_SIZE at h2 ⊢
    omega
  rw [he, Nat.add_mod_right]
  exact Nat.mod_eq_of_lt (by omega)

/-- For `id = 0` the unsigned computation `id - 1` wraps to `2^32 - 1`. -/
theorem slotIdx_zero : slotIdx 0 = UINT_SIZE - 1 := by
  unfold slotIdx UINT_SIZE
  decide

/-- The wrapped index is injective on the `unsigned int` range. -/
theorem slotIdx_inj (a b : Nat) (ha : a < UINT_SIZE) (hb : b < UINT_SIZE)
    (h : slotIdx a = slotIdx b) : a = b := by
  rcases Nat.eq_zero_or_pos a with hz | hp
  · rcases Nat.eq_zero_or_pos b with hz' | hp'
    · omega
    · rw [hz, slotIdx_zero, slotIdx_of_pos b hp' hb] at h
      unfold UINT_SIZE at *
      omega
  · rcases Nat.eq_zero_or_pos b with hz' | hp'
    · rw [hz', slotIdx_zero, slotIdx_of_pos a hp ha] at h
      unfold UINT_SIZE at *
      omega
    · rw [slotIdx_of_pos a hp ha, slotIdx_of_pos b hp' hb] at h
      omega

/-- Sample empty channel used by concrete witnesses. -/
def chan0 : Channel := ⟨[], 0⟩

/-- Sample scheduler state: one empty slot, host context running. -/
def stEmptySlot : St := ⟨[none], [], 0, chan0, []⟩

/-- Sample scheduler state: slot 1 holds a finished routine. -/
def stFinished : St := ⟨[some ⟨Prog.ret, true, true⟩], [1], 0, chan0, []⟩

/-- C1: for every identifier whose table slot exists, `resume` returns the
"not found" indicator `-1` when the slot is empty and the "already
finished" indicator `-2` when the routine's completion flag is set, and in
both failure cases it performs no context transfer and leaves the
scheduler state unchanged (the returned state is exactly the input
state). -/
theorem resume_failure_indicators (fuel id : Nat) (st : St)
    (hcur : st.current = 0) :
    (getSlot st id = some none →
      resume (fuel + 1) id st = Res.ok (-1, st)) ∧
    (∀ r : Routine, getSlot st id = some (some r) → r.finished = true →
      resume (fuel + 1) id st = Res.ok (-2, st)) := by
  constructor
  · intro h
    simp [resume, resumeWith, hcur, h]
  · intro r h hf
    simp [resume, resumeWith, hcur, h, hf]

/-- Witness for C1 at a concrete scheduler state: slot 1 empty gives `-1`,
and (for the second conjunct) a finished routine in slot 1 gives `-2`. -/
theorem resume_failure_indicators_witness :
    (stEmptySlot.current = 0 ∧ getSlot stEmptySlot 1 = some none ∧
      stFinished.current = 0 ∧
      getSlot stFinished 1 = some (some ⟨Prog.ret, true, true⟩)) ∧
    resume 3 1 stEmptySlot = Res.ok (-1, stEmptySlot) ∧
    resume 3 1 stFinished = Res.ok (-2, stFinished) :=
  ⟨by decide,
   (resume_failure_indicators 2 1 stEmptySlot (by decide)).1 (by decide),
   (resume_failure_indicators 2 1 stFinished (by decide)).2
     ⟨Prog.ret, true, true⟩ (by decide) (by decide)⟩

/-- C2 (code bug): from the empty scheduler, `create` a routine whose body
returns immediately (id 1), `resume` it — the body runs to completion and
the `entry` trampoline pushes id 1 onto the free-list while leaving slot 1
occupied by the finished `Routine` — and then a second `create` takes id 1
from the free-list and its `assert(routines[id - 1] == nullptr)` fires
(`Res.abort`): `create` is not failure-free on reachable states, contrary
to the spec's "Never fails" (the MSVC fiber backend's `entry` does not
push the id, confirming the ucontext `entry`'s push is the slip). -/
theorem create_assert_fires_after_completion :
    create Prog.ret ⟨[], [], 0, chan0, []⟩ =
      Res.ok (1, ⟨[some ⟨Prog.ret, false, false⟩], [], 0, chan0, []⟩) ∧
    resume 5 1 ⟨[some ⟨Prog.ret, false, false⟩], [], 0, chan0, []⟩ =
      Res.ok (0, ⟨[some ⟨Prog.ret, true, true⟩], [1], 0, chan0, []⟩) ∧
    create Prog.ret ⟨[some ⟨Prog.ret, true, true⟩], [1], 0, chan0, []⟩ =
      Res.abort :=
  ⟨by decide, by decide, by decide⟩

/-- C7: `await` hands back exactly the value the delegated function
produces, unchanged, whatever the number of polling iterations — the poll
loop never alters or retries the delegated computation, which is applied
exactly once in the model. -/
theorem await_returns_delegate_value {α β : Type} (polls : Nat)
    (f : α → β) (a : α) : await polls f a = f a := by
  show await.awaitPoll polls (f a) = f a
  generalize f a = v
  induction polls with
  | zero => rfl
  | succ n ih => exact ih

/-- C8: `clear`, `size` and `empty` operate on the pending backlog only:
`clear` empties the queue but does not change the bound consumer
identifier `taker_`, while `size` and `empty` report the backlog and
leave the whole channel state (queue contents and taker) unchanged. -/
theorem channel_queries_frame (c : Channel) :
    c.clear.taker_ = c.taker_ ∧
    c.clear.list_ = [] ∧
    c.size = (c.list_.length, c) ∧
    c.empty = (c.list_.isEmpty, c) :=
  ⟨rfl, rfl, rfl, rfl⟩

/-- Queue invariant behind the FIFO property: over any event trace, the
initial queue followed by the pushed values equals the popped values
followed by the final queue. -/
theorem runTrace_inv (evs : List Ev) :
    ∀ (c c' : Channel) (popped : List Val),
      runTrace evs c = some (c', popped) →
      c.list_ ++ pushesOf evs = popped ++ c'.list_ := by
  induction evs with
  | nil =>
    intro c c' popped h
    simp [runTrace] at h
    obtain ⟨rfl, rfl⟩ := h
    simp [pushesOf]
  | cons e evs ih =>
    intro c c' popped h
    cases e with
    | pushE v =>
      simp only [runTrace] at h
      have h2 := ih _ _ _ h
      simp only [Channel.pushQ, pushesOf] at h2 ⊢
      rw [← h2, List.append_assoc]
      simp
    | popE =>
      simp only [runTrace] at h
      cases hc : c.popQ with
      | none => rw [hc] at h; simp at h
      | some p =>
        obtain ⟨v, crest⟩ := p
        rw [hc] at h
        cases ht : runTrace evs crest with
        | none => simp [ht] at h
        | some q =>
          obtain ⟨c'', ps⟩ := q
          simp [ht] at h
          obtain ⟨rfl, rfl⟩ := h
          have h2 := ih _ _ _ ht
          have hd : c.list_ = v :: crest.list_ := by
            unfold Channel.popQ at hc
            cases hl : c.list_ with
            | nil => rw [hl] at hc; simp at hc
            | cons a as =>
              rw [hl] at hc
              simp at hc
              obtain ⟨rfl, rfl⟩ := hc
              rfl
          rw [hd]
          simp only [pushesOf, List.cons_append]
          rw [h2]

/-- C4: channel FIFO order.  For every trace of queue events (pushes of
`v1, ..., vn` interleaved arbitrarily with completed pops — a pop
completes only once the queue is non-empty, as `pop` loops in `yield()`
until then), the values the pops return are an initial prefix of
`v1, ..., vn` in exactly that order; when the trace drains the queue the
pops return exactly `v1, ..., vn`.  Moreover `popQ` removes and returns
the head of the queue. -/
theorem channel_fifo (evs : List Ev) (t : Nat) (c' : Channel)
    (popped : List Val) (h : runTrace evs ⟨[], t⟩ = some (c', popped)) :
    pushesOf evs = popped ++ c'.list_ ∧
    (c'.list_ = [] → popped = pushesOf evs) ∧
    (∀ (cc rest : Channel) (v : Val),
      cc.popQ = some (v, rest) → cc.list_ = v :: rest.list_) := by
  have h2 := runTrace_inv evs _ _ _ h
  simp at h2
  refine ⟨h2, ?_, ?_⟩
  · intro hnil
    rw [h2, hnil, List.append_nil]
  · intro cc rest v hc
    unfold Channel.popQ at hc
    cases hl : cc.list_ with
    | nil => rw [hl] at hc; simp at hc
    | cons a as =>
      rw [hl] at hc
      simp at hc
      obtain ⟨rfl, rfl⟩ := hc
      rfl

/-- Witness for C4 at a concrete trace: push 1, push 2, pop, push 3, pop,
pop — pops return 1, 2, 3 in FIFO order. -/
theorem channel_fifo_witness :
    runTrace [Ev.pushE 1, Ev.pushE 2, Ev.popE, Ev.pushE 3, Ev.popE, Ev.popE]
        ⟨[], 7⟩ = some (⟨[], 7⟩, [1, 2, 3]) ∧
    pushesOf [Ev.pushE 1, Ev.pushE 2, Ev.popE, Ev.pushE 3, Ev.popE, Ev.popE] =
      [1, 2, 3] ++ Channel.list_ ⟨[], 7⟩ :=
  ⟨by decide,
   (channel_fifo [Ev.pushE 1, Ev.pushE 2, Ev.popE, Ev.pushE 3, Ev.popE,
      Ev.popE] 7 ⟨[], 7⟩ [1, 2, 3] (by decide)).1⟩

/-- C6: starting from any scheduler whose free-list is empty, a sequence
of `create` calls with no intervening `destroy` issues exactly the
identifiers `len + 1, len + 2, ...` (each equal to the new size of the
routine table, which grows by one per call), so they are strictly
increasing and pairwise distinct; the free-list stays empty throughout. -/
theorem create_sequence_ids (fs : List Prog) :
    ∀ st : St, st.indexes = [] →
      ∃ st' : St,
        createSeq fs st =
          Res.ok (List.range' (st.routines.length + 1) fs.length, st') ∧
        st'.routines.length = st.routines.length + fs.length ∧
        st'.indexes = [] ∧
        (List.range' (st.routines.length + 1) fs.length).Pairwise (· < ·) := by
  induction fs with
  | nil =>
    intro st h
    exact ⟨st, by simp [createSeq], by simp, h, by simp⟩
  | cons f fs ih =>
    intro st h
    have hc : create f st =
        Res.ok (st.routines.length + 1,
          { st with routines := st.routines ++ [some (mkRoutine f)] }) := by
      simp [create, h]
    obtain ⟨st', h1, h2, h3, _⟩ := ih
      { st with routines := st.routines ++ [some (mkRoutine f)] } h
    refine ⟨st', ?_, ?_, h3, ?_⟩
    · simp only [createSeq, hc, h1, List.length_append, List.length_cons,
        List.length_nil, List.length_range']
      rw [List.range'_succ]
    · simp at h2 ⊢
      omega
    · exact List.pairwise_lt_range' _ _

/-- Witness for C6: three creates from the empty scheduler issue 1, 2, 3. -/
theorem create_sequence_ids_witness :
    St.indexes ⟨[], [], 0, chan0, []⟩ = [] ∧
    ∃ st' : St,
      createSeq [Prog.ret, Prog.ret, Prog.ret] ⟨[], [], 0, chan0, []⟩ =
        Res.ok ([1, 2, 3], st') ∧
      st'.routines.length = 3 :=
  ⟨rfl, by
    obtain ⟨st', h1, h2, _, _⟩ :=
      create_sequence_ids [Prog.ret, Prog.ret, Prog.ret]
        ⟨[], [], 0, chan0, []⟩ rfl
    exact ⟨st', h1, h2⟩⟩

/-- C9: `resume`, `destroy` and `yield` index `routines[id - 1]` with no
bounds check.  For a table of realistic size (fewer than `2^32` slots)
and an identifier in the `unsigned int` range, the slot access succeeds
exactly when `1 ≤ id ≤ table size` — in particular `id = 0` (whose index
wraps to `2^32 - 1`) and identifiers past the table size are out of range
(undefined behaviour, `Res.abort`); `resume`'s "not found" `-1` is
produced only for an in-range identifier whose slot is empty (and then
the state is returned unchanged); `destroy` reaches its normal path only
on an in-range, non-empty slot; and `yield`'s slot access requires the
current identifier to denote an in-range, non-empty slot. -/
theorem unchecked_indexing (st : St) (id : Nat)
    (hlen : st.routines.length < UINT_SIZE) (hid : id < UINT_SIZE) :
    ((getSlot st id).isSome = true ↔ 1 ≤ id ∧ id ≤ st.routines.length) ∧
    (∀ (fuel : Nat) (st' : St), resume fuel id st = Res.ok (-1, st') →
      getSlot st id = some none ∧ st' = st) ∧
    (∀ st' : St, destroy id st = Res.ok st' →
      ∃ r : Routine, getSlot st id = some (some r)) ∧
    (∀ (fuel : Nat) (k : Prog) (x : St × Option Prog),
      runProg (fuel + 1) st (Prog.yieldP k) = Res.ok x →
      ∃ r : Routine, getSlot st st.current = some (some r)) := by
  refine ⟨?_, ?_, ?_, ?_⟩
  · unfold getSlot
    rcases Nat.eq_zero_or_pos id with hz | hp
    · subst hz
      rw [slotIdx_zero]
      constructor
      · intro hs
        exfalso
        rw [Option.isSome_iff_exists] at hs
        obtain ⟨a, ha⟩ := hs
        obtain ⟨hlt, -⟩ := List.get?_eq_some.mp ha
        omega
      · intro hcon
        omega
    · rw [slotIdx_of_pos id hp hid]
      constructor
      · intro hs
        rw [Option.isSome_iff_exists] at hs
        obtain ⟨a, ha⟩ := hs
        obtain ⟨hlt, -⟩ := List.get?_eq_some.mp ha
        omega
      · intro hcon
        have hlt : id - 1 < st.routines.length := by omega
        rw [Option.isSome_iff_exists]
        exact ⟨_, List.get?_eq_get hlt⟩
  · intro fuel st' h
    cases fuel with
    | zero => exact absurd h (by simp [resume])
    | succ n =>
      simp only [resume] at h
      unfold resumeWith at h
      split at h
      · exact absurd h (by simp)
      · split at h
        · exact absurd h (by simp)
        next hslot =>
          simp only [Res.ok.injEq, Prod.mk.injEq] at h
          exact ⟨hslot, h.2.symm⟩
        next r hslot =>
          split at h
          · simp only [Res.ok.injEq, Prod.mk.injEq] at h
            exact absurd h.1 (by decide)
          · simp only [] at h
            split at h
            · exact absurd h (by simp)
            · exact absurd h (by simp)
            · simp only [Res.ok.injEq, Prod.mk.injEq] at h
              exact absurd h.1 (by decide)
            · simp only [Res.ok.injEq, Prod.mk.injEq] at h
              exact absurd h.1 (by decide)
  · intro st' h
    unfold destroy at h
    split at h
    · simp at h
    · simp at h
    · exact ⟨_, by assumption⟩
  · intro fuel k x h
    unfold runProg at h
    split at h
    · simp at h
    · simp at h
    · exact ⟨_, by assumption⟩

/-- Witness for C9 at a one-slot table: the access for id 1 succeeds and
`resume` returns `-1` exactly off the empty in-range slot. -/
theorem unchecked_indexing_witness :
    (stEmptySlot.routines.length < UINT_SIZE ∧ 1 < UINT_SIZE) ∧
    ((getSlot stEmptySlot 1).isSome = true ↔
      1 ≤ 1 ∧ 1 ≤ stEmptySlot.routines.length) :=
  ⟨⟨by norm_num [stEmptySlot, UINT_SIZE], by norm_num [UINT_SIZE]⟩,
   (unchecked_indexing stEmptySlot 1
     (by norm_num [stEmptySlot, UINT_SIZE]) (by norm_num [UINT_SIZE])).1⟩

/-- C10: on the ucontext backend, when a routine's body returns, the
`entry` trampoline sets its completion flag, resets `current` to 0 and
pushes the routine's identifier onto the free-list while leaving its
table slot occupied by the finished `Routine`: after natural completion
(no `destroy`) the identifier is simultaneously on the free-list and
denotes a non-empty slot. -/
theorem entry_completion_effects (fuel id : Nat) (st : St) (s : Bool)
    (hcur : st.current = 0)
    (hslot : getSlot st id = some (some ⟨Prog.ret, s, false⟩)) :
    resume (fuel + 2) id st =
      Res.ok (0,
        { st with
            routines :=
              st.routines.set (slotIdx id) (some ⟨Prog.ret, true, true⟩),
            current := 0,
            indexes := st.indexes ++ [id] }) ∧
    id ∈ st.indexes ++ [id] ∧
    (st.routines.set (slotIdx id) (some ⟨Prog.ret, true, true⟩)).get?
        (slotIdx id) = some (some ⟨Prog.ret, true, true⟩) := by
  have hlt : slotIdx id < st.routines.length := by
    unfold getSlot at hslot
    obtain ⟨hl, -⟩ := List.get?_eq_some.mp hslot
    exact hl
  refine ⟨?_, by simp, ?_⟩
  · unfold resume resumeWith
    simp [hcur, hslot, runProg, List.set_set]
  · rw [List.get?_eq_getElem?]
    exact List.getElem?_set_self hlt

/-- Witness for C10: the empty-bodied routine in slot 1 of a fresh table. -/
theorem entry_completion_effects_witness :
    (St.current ⟨[some ⟨Prog.ret, false, false⟩], [], 0, chan0, []⟩ = 0 ∧
      getSlot ⟨[some ⟨Prog.ret, false, false⟩], [], 0, chan0, []⟩ 1 =
        some (some ⟨Prog.ret, false, false⟩)) ∧
    resume 5 1 ⟨[some ⟨Prog.ret, false, false⟩], [], 0, chan0, []⟩ =
      Res.ok (0,
        { routines := [some ⟨Prog.ret, false, false⟩].set (slotIdx 1)
            (some ⟨Prog.ret, true, true⟩),
          indexes := [] ++ [1], current := 0, chan := chan0, log := [] }) :=
  ⟨⟨rfl, by decide⟩,
   (entry_completion_effects 3 1
     ⟨[some ⟨Prog.ret, false, false⟩], [], 0, chan0, []⟩ false rfl
     (by decide)).1⟩

/-- While a routine is running (`current ≠ 0`), no step of its body can
modify the routine table: `yield` and the channel operations touch only
`current`, the queue and the pop log, and a nested `resume` from
`Channel::push` dies on `resume`'s `assert(ordinator.current == 0)`
before reaching the table. -/
theorem runProg_preserves_table (fuel : Nat) :
    ∀ (st : St) (p : Prog) (st' : St) (k : Option Prog),
      st.current ≠ 0 → runProg fuel st p = Res.ok (st', k) →
      st'.routines = st.routines := by
  induction fuel with
  | zero =>
    intro st p st' k hc h
    simp [runProg] at h
  | succ n ih =>
    intro st p st' k hc h
    cases p with
    | ret =>
      simp only [runProg, Res.ok.injEq, Prod.mk.injEq] at h
      rw [← h.1]
    | yieldP k2 =>
      simp only [runProg] at h
      split at h
      · exact absurd h (by simp)
      · exact absurd h (by simp)
      · simp only [Res.ok.injEq, Prod.mk.injEq] at h
        rw [← h.1]
    | pushP v k2 =>
      simp only [runProg] at h
      split at h
      next hcond =>
        have habort :
            resumeWith (runProg n)
              ({ st with chan := st.chan.pushQ v }).chan.taker_
              { st with chan := st.chan.pushQ v } = Res.abort := by
          unfold resumeWith
          rw [if_pos]
          exact hc
        rw [habort] at h
        exact absurd h (by simp)
      next hcond =>
        exact ih { st with chan := st.chan.pushQ v } k2 st' k hc h
    | popP k2 =>
      simp only [runProg] at h
      by_cases h0 : st.chan.taker_ = 0
      · rw [if_pos h0] at h
        exact ih { st with chan := st.chan.consume st.current }
          (Prog.popLoopP k2) st' k hc h
      · rw [if_neg h0] at h
        exact ih st (Prog.popLoopP k2) st' k hc h
    | popLoopP k2 =>
      simp only [runProg] at h
      split at h
      next hq =>
        split at h
        · exact absurd h (by simp)
        · exact absurd h (by simp)
        · simp only [Res.ok.injEq, Prod.mk.injEq] at h
          rw [← h.1]
      next v rest hq =>
        have h3 := ih _ k2 st' k (by exact hc) h
        exact h3

/-- C5: a routine's completion flag becomes true exactly once — set by the
`entry` trampoline when its body returns — and the routine is never
resumed again afterward.  First conjunct: `resume` of a finished routine
returns the `-2` indicator with the state untouched (no context
transfer).  Second conjunct: no `resume` of any routine ever alters a
finished routine's slot (the flag can never revert).  Third conjunct: for
a routine whose body yields exactly once and then returns, the first
`resume` returns to the host at the yield, the second runs the remainder
and sets the completion flag, and a third fails with `-2`. -/
theorem finished_transitions_once :
    (∀ (fuel id : Nat) (st : St) (r : Routine), st.current = 0 →
        getSlot st id = some (some r) → r.finished = true →
        resume (fuel + 1) id st = Res.ok (-2, st)) ∧
    (∀ (fuel id tid : Nat) (st st' : St) (x : Int) (r : Routine),
        st.routines.length < UINT_SIZE → id < UINT_SIZE → tid < UINT_SIZE →
        getSlot st id = some (some r) → r.finished = true →
        resume fuel tid st = Res.ok (x, st') →
        getSlot st' id = some (some r)) ∧
    (resume 10 1 ⟨[some ⟨Prog.yieldP Prog.ret, false, false⟩], [], 0, chan0, []⟩ =
        Res.ok (0, ⟨[some ⟨Prog.ret, true, false⟩], [], 0, chan0, []⟩) ∧
      resume 10 1 ⟨[some ⟨Prog.ret, true, false⟩], [], 0, chan0, []⟩ =
        Res.ok (0, ⟨[some ⟨Prog.ret, true, true⟩], [1], 0, chan0, []⟩) ∧
      resume 10 1 ⟨[some ⟨Prog.ret, true, true⟩], [1], 0, chan0, []⟩ =
        Res.ok (-2, ⟨[some ⟨Prog.ret, true, true⟩], [1], 0, chan0, []⟩)) := by
  refine ⟨?_, ?_, by decide, by decide, by decide⟩
  · intro fuel id st r hcur hslot hf
    simp [resume, resumeWith, hcur, hslot, hf]
  · intro fuel id tid st st' x r hlen hid htid hslot hf h
    cases fuel with
    | zero => exact absurd h (by simp [resume])
    | succ n =>
      simp only [resume] at h
      unfold resumeWith at h
      split at h
      · exact absurd h (by simp)
      · split at h
        · exact absurd h (by simp)
        next hs2 =>
          simp only [Res.ok.injEq, Prod.mk.injEq] at h
          rw [← h.2]
          exact hslot
        next r2 hs2 =>
          split at h
          · simp only [Res.ok.injEq, Prod.mk.injEq] at h
            rw [← h.2]
            exact hslot
          next hf2 =>
            have htid0 : tid ≠ 0 := by
              intro h0
              subst h0
              unfold getSlot at hs2
              rw [slotIdx_zero] at hs2
              obtain ⟨hl, -⟩ := List.get?_eq_some.mp hs2
              omega
            have hne : id ≠ tid := by
              intro he
              subst he
              rw [hslot] at hs2
              injection hs2 with h3
              injection h3 with h4
              exact hf2 (h4 ▸ hf)
            have hidx : slotIdx tid ≠ slotIdx id := by
              intro hh
              exact hne (slotIdx_inj id tid hid htid hh.symm)
            simp only [] at h
            split at h
            · exact absurd h (by simp)
            · exact absurd h (by simp)
            next st2 hrun =>
              have hpres := runProg_preserves_table n _ _ _ _ htid0 hrun
              simp only [Res.ok.injEq, Prod.mk.injEq] at h
              rw [← h.2]
              unfold getSlot
              rw [List.get?_set_ne _ _ hidx, hpres,
                List.get?_set_ne _ _ hidx]
              exact hslot
            next st2 k2 hrun =>
              have hpres := runProg_preserves_table n _ _ _ _ htid0 hrun
              simp only [Res.ok.injEq, Prod.mk.injEq] at h
              rw [← h.2]
              unfold getSlot
              rw [List.get?_set_ne _ _ hidx, hpres,
                List.get?_set_ne _ _ hidx]
              exact hslot

/-- Witness for C5 at a concrete finished routine: the third resume of the
scenario, justified by the theorem's first conjunct. -/
theorem finished_transitions_once_witness :
    (stFinished.current = 0 ∧
      getSlot stFinished 1 = some (some ⟨Prog.ret, true, true⟩) ∧
      Routine.finished ⟨Prog.ret, true, true⟩ = true) ∧
    resume 4 1 stFinished = Res.ok (-2, stFinished) :=
  ⟨by decide,
   finished_transitions_once.1 3 1 stFinished ⟨Prog.ret, true, true⟩
     (by decide) (by decide) rfl⟩

/-- Concrete refutation of C3 as stated: routine 1 is running
(`current = 1` once resumed) and calls `Channel::push(7)` while routine 2
is the bound consumer suspended inside `pop`; `push` then calls
`resume(2)` from inside a running routine, and `resume`'s
`assert(ordinator.current == 0)` fires — the run aborts (`Res.abort`),
so the consumer is NOT resumed and `push` never returns to its caller,
contradicting the claim's "including when push is called from inside a
running routine". -/
theorem push_inside_routine_aborts :
    resume 10 1 ⟨[some ⟨Prog.pushP 7 Prog.ret, false, false⟩,
        some ⟨Prog.popLoopP Prog.ret, true, false⟩], [], 0, ⟨[], 2⟩, []⟩ =
      Res.abort := by
  decide

/-- C3 (amended): `push(value)` appends `value` at the tail of the queue;
when no consumer is bound (or the bound consumer is the caller itself)
that is all it does; when a consumer distinct from the caller is bound
AND the caller is the host context (`current() = 0`), `push` resumes the
consumer before returning — here a consumer suspended inside `pop` on an
empty queue wakes, removes the pushed value (it lands in the pop log) and
suspends again inside its next `pop`, all before `push` returns; but when
`push` is called from inside a running routine with a different bound
consumer, the nested `resume` violates its `current == 0` assertion and
the program aborts instead of performing the hand-off. -/
theorem push_appends_and_wakes_from_host :
    (∀ (st : St) (v : Val),
        st.chan.taker_ = 0 ∨ st.chan.taker_ = st.current →
        hostPush 10 v st = Res.ok { st with chan := st.chan.pushQ v }) ∧
    (∀ (st : St) (v : Val) (t : Nat) (k : Prog),
        st.current = 0 → st.chan.taker_ = t → t ≠ 0 →
        st.chan.list_ = [] →
        getSlot st t = some (some ⟨Prog.popLoopP (Prog.popP k), true, false⟩) →
        hostPush 10 v st =
          Res.ok { st with
              routines := st.routines.set (slotIdx t)
                (some ⟨Prog.popLoopP k, true, false⟩),
              chan := ⟨[], t⟩,
              log := st.log ++ [v] }) ∧
    (∀ (st : St) (v : Val),
        st.current ≠ 0 → st.chan.taker_ ≠ 0 → st.chan.taker_ ≠ st.current →
        hostPush 10 v st = Res.abort) := by
  refine ⟨?_, ?_, ?_⟩
  · intro st v hdis
    rcases hdis with h0 | hs
    · simp [hostPush, Channel.pushQ, h0]
    · simp [hostPush, Channel.pushQ, hs]
  · intro st v t k hcur ht ht0 hq hslot
    have hlt : slotIdx t < st.routines.length := by
      unfold getSlot at hslot
      obtain ⟨hl, -⟩ := List.get?_eq_some.mp hslot
      exact hl
    obtain ⟨rs, ixs, cur, ⟨ql, tk⟩, lg⟩ := st
    simp only [] at hcur ht hq hslot hlt
    subst hcur hq ht
    unfold getSlot at hslot
    rw [List.get?_eq_getElem?] at hslot
    simp only [] at hslot
    have hget : (rs.set (slotIdx tk)
        (some ⟨Prog.popLoopP (Prog.popP k), true, false⟩))[slotIdx tk]? =
        some (some ⟨Prog.popLoopP (Prog.popP k), true, false⟩) :=
      List.getElem?_set_self hlt
    simp [hostPush, resume, resumeWith, runProg, getSlot, Channel.pushQ,
      ht0, hslot, hget, List.set_set]
  · intro st v hcur ht0 hne
    have habort :
        resume 10 ({ st with chan := st.chan.pushQ v }).chan.taker_
          { st with chan := st.chan.pushQ v } = Res.abort := by
      simp only [resume]
      unfold resumeWith
      rw [if_pos]
      exact hcur
    simp only [hostPush]
    rw [if_pos ⟨ht0, hne⟩, habort]

/-- Witness for C3's amended statement: host pushes 7 to a channel whose
consumer (routine 1) is suspended inside `pop`; the consumer wakes,
consumes the value and suspends again before `push` returns. -/
theorem push_appends_and_wakes_from_host_witness :
    (St.current ⟨[some ⟨Prog.popLoopP (Prog.popP Prog.ret), true, false⟩],
        [], 0, ⟨[], 1⟩, []⟩ = 0 ∧ (1 : Nat) ≠ 0) ∧
    hostPush 10 7 ⟨[some ⟨Prog.popLoopP (Prog.popP Prog.ret), true, false⟩],
        [], 0, ⟨[], 1⟩, []⟩ =
      Res.ok { routines := [some ⟨Prog.popLoopP (Prog.popP Prog.ret), true,
                 false⟩].set (slotIdx 1)
                 (some ⟨Prog.popLoopP Prog.ret, true, false⟩),
               indexes := [], current := 0, chan := ⟨[], 1⟩,
               log := [] ++ [7] } :=
  ⟨⟨rfl, by decide⟩,
   (push_appends_and_wakes_from_host.2.1)
     ⟨[some ⟨Prog.popLoopP (Prog.popP Prog.ret), true, false⟩],
       [], 0, ⟨[], 1⟩, []⟩ 7 1 Prog.ret rfl rfl (by decide) rfl (by decide)⟩

end CoroutineModel
